import Mathlib

/-!
Verification development for the ingestion-tools frontend
(React client of the bridge-inspection schedule generator).

The definitions below shallowly embed the JavaScript source:
JS objects with string-valued fields become Lean structures or
functions from field names to strings, JS arrays become lists,
and the fetch-based client operations become pure functions that
take the HTTP response as an explicit argument.
-/

namespace IngestionTools

/-! ## Column layout constants (SchedulePage.jsx / DailyLogsPage.jsx) -/

/-- The named fields of the fixed MASTER_SCHEDULE_COLUMNS mapping. -/
inductive MasterField where
  | county
  | bin
  | feature_carried
  | feature_crossed
  | prev_inspection_due_date
  | due_date
  | gr
  | access
  | scheduled_date
  | town
deriving DecidableEq

/-- MASTER_SCHEDULE_COLUMNS as written in the Schedule page. -/
def masterScheduleColumnsSchedule : MasterField → Nat
  | .county => 0
  | .bin => 1
  | .feature_carried => 2
  | .feature_crossed => 3
  | .prev_inspection_due_date => 5
  | .due_date => 6
  | .gr => 9
  | .access => 15
  | .scheduled_date => 16
  | .town => 19

/-- MASTER_SCHEDULE_COLUMNS as written in the Daily Logs page. -/
def masterScheduleColumnsDailyLogs : MasterField → Nat
  | .county => 0
  | .bin => 1
  | .feature_carried => 2
  | .feature_crossed => 3
  | .prev_inspection_due_date => 5
  | .due_date => 6
  | .gr => 9
  | .access => 15
  | .scheduled_date => 16
  | .town => 19

/-! ## Preview cell rendering (shared by both preview tables)

Each preview cell renders the JS expression
  entry[field] || (field === 'due_date' ? '-' : '')
and carries the class
  field === 'lane_closed' && entry[field] === 'Y' ? 'lc-y' : ''.
A JS field read is modelled as Option String: none for an absent
field, some s for a string value; among strings only "" is falsy. -/

/-- Text shown in one preview cell for a given field and field value. -/
def renderCellText (field : String) (value : Option String) : String :=
  match value with
  | none => if field = "due_date" then "-" else ""
  | some s =>
    if s = "" then (if field = "due_date" then "-" else "") else s

/-- Class attribute of one preview cell for a given field and field value. -/
def cellClassOf (field : String) (value : Option String) : String :=
  if field = "lane_closed" ∧ value = some "Y" then "lc-y" else ""

/-! ## Editable preview: handleCellChange

An entry held in React state is a JS object; we model it as a total
map from field names to string values.  handleCellChange copies the
array, then replaces the object at rowIndex by a spread copy with
the one named field overwritten. -/

/-- A preview entry as mutated by the grid editor: field name to value. -/
def JsObj : Type := String → String

/-- The spread-with-computed-key update: all fields of e, with f set to v. -/
def objSet (e : JsObj) (f v : String) : JsObj :=
  fun g => if g = f then v else e g

/-- handleCellChange from SchedulePage.jsx and DailyLogsPage.jsx (the two
bodies are identical): copy the array and replace the object at rowIndex
by a copy with the named field overwritten. -/
def handleCellChange (es : List JsObj) (rowIndex : Nat) (f v : String) :
    List JsObj :=
  es.set rowIndex (objSet (es.getD rowIndex (fun _ => "")) f v)

/-- A concrete two-row entry list used to instantiate cell-edit facts. -/
def sampleRow (s : String) : JsObj := fun _ => s

/-- A concrete two-row entry list used to instantiate cell-edit facts. -/
def sampleEntries : List JsObj := [sampleRow "a", sampleRow "b"]

/-! ## Character-list utilities

The client code uses JS string searching (String.prototype.match with a
literal pattern, splitting on separators).  We embed strings as lists of
characters and give the searching functions explicitly. -/

/-- If pat is a leading prefix of s, return the remainder of s after it. -/
def stripLead : List Char → List Char → Option (List Char)
  | [], s => some s
  | _ :: _, [] => none
  | p :: ps, c :: cs => if p = c then stripLead ps cs else none

/-- Split s at the first occurrence of pat: returns the part before the
occurrence and the part after it, or none when pat does not occur. -/
def splitFirstSub (pat : List Char) : List Char → Option (List Char × List Char)
  | [] => none
  | c :: rest =>
    match stripLead pat (c :: rest) with
    | some post => some ([], post)
    | none => (splitFirstSub pat rest).map (fun p => (c :: p.1, p.2))

/-- Split a character list on every occurrence of a single separator. -/
def splitAllChar (sep : Char) : List Char → List (List Char)
  | [] => [[]]
  | c :: rest =>
    match splitAllChar sep rest with
    | [] => if c = sep then [[], [c]] else [[c]]
    | h :: t => if c = sep then [] :: h :: t else (c :: h) :: t

/-- Drop leading space characters. -/
def dropLeadSpaces : List Char → List Char
  | [] => []
  | c :: r => if c = ' ' then dropLeadSpaces r else c :: r

/-- Drop leading and trailing space characters. -/
def trimSpaces (cs : List Char) : List Char :=
  ((dropLeadSpaces (dropLeadSpaces cs.reverse)).reverse) |> dropLeadSpaces

/-! ## Calendar dates and the Date Expression Parser

The backend component that implements the booked-access date grammar is
not part of this repository snapshot; the definitions below are modelled
from the spec (section 4.1).  A concrete calendar day is identified by
its ordinal day number in the proleptic Gregorian calendar (day 1 is
January 1 of year 1); the parser returns ordered lists of ordinals. -/

/-- Gregorian leap-year rule. -/
def isLeap (y : Nat) : Bool :=
  y % 4 == 0 && (y % 100 != 0 || y % 400 == 0)

/-- Days in a given month of a given year. -/
def daysInMonth (y m : Nat) : Nat :=
  if m = 2 then (if isLeap y then 29 else 28)
  else if m = 4 ∨ m = 6 ∨ m = 9 ∨ m = 11 then 30 else 31

/-- Days in all years strictly before year y. -/
def daysBeforeYear (y : Nat) : Nat :=
  (y - 1) * 365 + (y - 1) / 4 - (y - 1) / 100 + (y - 1) / 400

/-- Days in all months of year y strictly before month m. -/
def daysBeforeMonth (y m : Nat) : Nat :=
  ((List.range (m - 1)).map (fun k => daysInMonth y (k + 1))).sum

/-- A calendar date as month/day/year numbers. -/
structure Date where
  year : Nat
  month : Nat
  day : Nat
deriving DecidableEq

/-- Ordinal day number of a date (proleptic Gregorian, day 1 = Jan 1, 1). -/
def toOrd (d : Date) : Nat :=
  daysBeforeYear d.year + daysBeforeMonth d.year d.month + d.day

/-- Modelled from the spec: the implicit year used when a date token has
no year part (the source hardcodes the current deployment year). -/
def implicitYear : Nat := 2025

/-- Digits of a token as a number; none when empty or not all digits. -/
def charsToNat? (cs : List Char) : Option Nat :=
  if cs ≠ [] ∧ cs.all (·.isDigit) then
    some (cs.foldl (fun a c => a * 10 + (c.toNat - 48)) 0)
  else none

/-- Modelled from the spec: one date token, MM/DD/YY or MM/DD or
MM/DD/YYYY, with two-digit years read as 2000+YY and a missing year
defaulting to the implicit year; an unparseable token gives none. -/
def parseDateToken (cs : List Char) : Option Date :=
  match (trimSpaces cs).splitOn '/' with
  | [ms, ds] => do
    let m ← charsToNat? ms
    let d ← charsToNat? ds
    some ⟨implicitYear, m, d⟩
  | [ms, ds, ys] => do
    let m ← charsToNat? ms
    let d ← charsToNat? ds
    let y ← charsToNat? ys
    some ⟨if ys.length = 2 then 2000 + y else y, m, d⟩
  | _ => none

/-- The literal range separator, with its surrounding spaces. -/
def sepTo : List Char := [' ', 't', 'o', ' ']

/-- Modelled from the spec: the range case of the date grammar — every
calendar day from d1 through d2 inclusive, ascending, as ordinals; fails
when d2 is before d1. -/
def rangeDates (d1 d2 : Date) : Option (List Nat) :=
  if toOrd d2 < toOrd d1 then none
  else some (List.range' (toOrd d1) (toOrd d2 - toOrd d1 + 1))

/-- Modelled from the spec: the date-expression grammar in precedence
order — a range D1 to D2, else a multi-date list split on the ampersand
separator, a single token being a one-element such list. -/
def parseDateExpr (cs : List Char) : Option (List Nat) :=
  match splitFirstSub sepTo cs with
  | some (a, b) => do
    let d1 ← parseDateToken a
    let d2 ← parseDateToken b
    rangeDates d1 d2
  | none =>
    match (splitAllChar '&' cs).mapM parseDateToken with
    | some ds => some (ds.map toOrd)
    | none => none

/-! ## Week/weekday grouping (DailyLogPreview in DailyLogsPage.jsx)

DailyLogPreview builds entriesByDay: a JS object mapping the weekday
index of each entry's scheduled_date to the list of entries pushed for
that weekday, in input order.  A JS object keyed by small integers is
embedded as an association list in key-insertion order (the iteration
order of the buckets does not matter to the claims proved here). -/

/-- The preview entry record exchanged with the backend (string fields,
as rendered in the preview grid). -/
structure ScheduleEntry where
  county : String
  bin : String
  feature_carried : String
  feature_crossed : String
  due_date : String
  scheduled_date : String
  access : String
  lane_closed : String
  town : String
deriving DecidableEq

/-- Weekday index of an entry's scheduled_date as computed by
new Date(entry.scheduled_date).getDay().  Day 0 of the ordinal count is
a Sunday, so the ordinal modulo 7 matches getDay (Sunday = 0); an
unparseable date (NaN in JS) is modelled by the sentinel key 7. -/
def dayIndexOf (e : ScheduleEntry) : Nat :=
  match parseDateToken e.scheduled_date.data with
  | some d => toOrd d % 7
  | none => 7

/-- Push one entry onto the bucket for key k, creating the bucket at the
end of the association list when the key is new. -/
def addToBucket {α : Type} (m : List (Nat × List α)) (k : Nat) (e : α) :
    List (Nat × List α) :=
  match m with
  | [] => [(k, [e])]
  | (k', b) :: rest =>
    if k' = k then (k', b ++ [e]) :: rest
    else (k', b) :: addToBucket rest k e

/-- entriesByDay from DailyLogPreview: fold every entry into the bucket
of its weekday index. -/
def entriesByDay (es : List ScheduleEntry) : List (Nat × List ScheduleEntry) :=
  es.foldl (fun m e => addToBucket m (dayIndexOf e) e) []

/-- All entries stored in the buckets of an association list. -/
def bucketUnion {α : Type} (m : List (Nat × List α)) : List α :=
  m.flatMap (fun p => p.2)

/-! ## Serialization of entries (JSON.stringify in generateSchedule)

generateSchedule sends entries_json = JSON.stringify(entries): the
entries value, serialized as is.  We embed the serializer concretely —
each entry is a JSON object of the nine string fields in a fixed key
order, strings escaped for double quote and backslash — together with a
decoder; the round-trip theorem is how the development states that the
serialization alters, drops and re-parses nothing. -/

/-- JSON escaping of one character (quote and backslash; the entry
fields hold no control characters). -/
def escChar (c : Char) : List Char :=
  if c = '"' ∨ c = '\\' then ['\\', c] else [c]

/-- JSON string-body escaping. -/
def escape (s : List Char) : List Char := s.flatMap escChar

/-- Read an escaped JSON string body up to its closing quote, returning
the unescaped content and the remainder after the closing quote. -/
def readStr : List Char → Option (List Char × List Char)
  | [] => none
  | c :: rest =>
    if c = '\\' then
      match rest with
      | [] => none
      | d :: rest2 => (readStr rest2).map (fun p => (d :: p.1, p.2))
    else if c = '"' then some ([], rest)
    else (readStr rest).map (fun p => (c :: p.1, p.2))

/-- Opening of the serialized entry object, up to the first value. -/
def litEntryLead : List Char := '\x7b' :: "\"county\":\"".data

/-- Key separators between consecutive fields (each follows the closing
quote of the previous value and ends at the opening quote of the next). -/
def litToBin : List Char := ",\"bin\":\"".data

/-- Key separator before feature_carried. -/
def litToFeatC : List Char := ",\"feature_carried\":\"".data

/-- Key separator before feature_crossed. -/
def litToFeatX : List Char := ",\"feature_crossed\":\"".data

/-- Key separator before due_date. -/
def litToDue : List Char := ",\"due_date\":\"".data

/-- Key separator before scheduled_date. -/
def litToSched : List Char := ",\"scheduled_date\":\"".data

/-- Key separator before access. -/
def litToAccess : List Char := ",\"access\":\"".data

/-- Key separator before lane_closed. -/
def litToLane : List Char := ",\"lane_closed\":\"".data

/-- Key separator before town. -/
def litToTown : List Char := ",\"town\":\"".data

/-- Serialize one entry as a JSON object. -/
def encodeEntry (e : ScheduleEntry) : List Char :=
  litEntryLead ++ escape e.county.data ++
  '"' :: litToBin ++ escape e.bin.data ++
  '"' :: litToFeatC ++ escape e.feature_carried.data ++
  '"' :: litToFeatX ++ escape e.feature_crossed.data ++
  '"' :: litToDue ++ escape e.due_date.data ++
  '"' :: litToSched ++ escape e.scheduled_date.data ++
  '"' :: litToAccess ++ escape e.access.data ++
  '"' :: litToLane ++ escape e.lane_closed.data ++
  '"' :: litToTown ++ escape e.town.data ++
  '"' :: ['\x7d']

/-- Parse one field: its key literal, then its escaped string value. -/
def readField (lit s : List Char) : Option (List Char × List Char) :=
  (stripLead lit s).bind readStr

/-- Parse one serialized entry, returning it with the remaining input. -/
def decodeEntry (s0 : List Char) : Option (ScheduleEntry × List Char) :=
  (readField litEntryLead s0).bind fun p1 =>
  (readField litToBin p1.2).bind fun p2 =>
  (readField litToFeatC p2.2).bind fun p3 =>
  (readField litToFeatX p3.2).bind fun p4 =>
  (readField litToDue p4.2).bind fun p5 =>
  (readField litToSched p5.2).bind fun p6 =>
  (readField litToAccess p6.2).bind fun p7 =>
  (readField litToLane p7.2).bind fun p8 =>
  (readField litToTown p8.2).bind fun p9 =>
  (stripLead ['\x7d'] p9.2).bind fun s =>
  some (⟨String.mk p1.1, String.mk p2.1, String.mk p3.1, String.mk p4.1,
    String.mk p5.1, String.mk p6.1, String.mk p7.1, String.mk p8.1,
    String.mk p9.1⟩, s)

/-- Bodies of the serialized entry array, comma-separated. -/
def encodeInner : List ScheduleEntry → List Char
  | [] => []
  | [e] => encodeEntry e
  | e :: es => encodeEntry e ++ ',' :: encodeInner es

/-- JSON.stringify of the entries array. -/
def encodeEntries (es : List ScheduleEntry) : List Char :=
  '[' :: encodeInner es ++ [']']

/-- Parse the comma-separated bodies of a serialized entry array up to
the closing bracket (fuelled; one unit of fuel per entry suffices). -/
def decodeInnerAux : Nat → List Char → Option (List ScheduleEntry)
  | 0, _ => none
  | fuel + 1, s => do
    let (e, rest) ← decodeEntry s
    match rest with
    | [] => none
    | c :: rest2 =>
      if c = ']' then (if rest2 = [] then some [e] else none)
      else if c = ',' then (decodeInnerAux fuel rest2).map (fun l => e :: l)
      else none

/-- Parse a serialized entries array in full. -/
def decodeEntries : List Char → Option (List ScheduleEntry)
  | [] => none
  | c :: rest =>
    if c = '[' then
      if rest = [']'] then some [] else decodeInnerAux rest.length rest
    else none

/-! ## The Generate client operation (generateSchedule in the API client)

generateSchedule posts a JSON body with team_name, entries_json,
output_dir and save_to_system, and turns the HTTP response into either
a document result (blob, filename, content type) or a thrown error
message.  The fetch round trip is embedded by passing the response as
an explicit value. -/

/-- The POST body of a Generate call. -/
structure GenRequest where
  team_name : String
  entries_json : List Char
  output_dir : String
  save_to_system : Bool

/-- The request body generateSchedule builds from its arguments (the JS
defaults are outputDir = empty and saveToSystem = false). -/
def mkGenerateRequest (teamName : String) (entries : List ScheduleEntry)
    (outputDir : String) (saveToSystem : Bool) : GenRequest :=
  { team_name := teamName
    entries_json := encodeEntries entries
    output_dir := outputDir
    save_to_system := saveToSystem }

/-- The HTTP response to a Generate call, as the client observes it:
the ok flag, body bytes, the two response headers the client reads, and
the error field of the JSON body — none when the body is not parseable
JSON, some none when it parses but has no usable error string. -/
structure HttpResponse where
  ok : Bool
  body : String
  contentDispositionHdr : Option String
  contentTypeHdr : Option String
  errorField : Option (Option String)

/-- What a successful Generate call resolves to. -/
structure GenResult where
  blob : String
  filename : String
  contentType : String

/-- The regex literal filename=  followed by a double quote. -/
def fnPat : List Char := ['f', 'i', 'l', 'e', 'n', 'a', 'm', 'e', '=', '"']

/-- The constant prefix of a standard Content-Disposition header value. -/
def attachLead : List Char :=
  ['a', 't', 't', 'a', 'c', 'h', 'm', 'e', 'n', 't', ';', ' ']

/-- The remainder after the first double quote, or none. -/
def splitAtFirstQuote : List Char → Option (List Char)
  | [] => none
  | c :: rest => if c = '"' then some rest else splitAtFirstQuote rest

/-- The capture group of the JS regex match against filename="(.+)": the
text between the first occurrence of the pattern and the last double
quote after it, when non-empty (the greedy .+ backtracks to the last
closing quote and must capture at least one character). -/
def extractCapture (s : List Char) : Option (List Char) :=
  match splitFirstSub fnPat s with
  | none => none
  | some (_, post) =>
    match splitAtFirstQuote post.reverse with
    | none => none
    | some revCap => if revCap = [] then none else some revCap.reverse

/-- Filename selection from the optional Content-Disposition header:
the regex capture when available, else the fixed default. -/
def extractFilenameHdr (hdr : Option String) : String :=
  match hdr with
  | none => "schedule.xlsx"
  | some h =>
    match extractCapture h.data with
    | none => "schedule.xlsx"
    | some cap => String.mk cap

/-- The message of the error thrown on a non-ok response:
the server's error field when it is a non-empty string, else the
fixed fallback used when the body is not parseable JSON or carries no
usable error field. -/
def errMessageOf (resp : HttpResponse) : String :=
  match resp.errorField with
  | none => "Failed to generate schedule"
  | some none => "Failed to generate schedule"
  | some (some s) => if s = "" then "Failed to generate schedule" else s

/-- Response handling of generateSchedule: a non-ok response throws the
error message; an ok response resolves to the blob, the filename from
the Content-Disposition header, and the Content-Type header or empty. -/
def generateScheduleResp (resp : HttpResponse) : Except String GenResult :=
  if resp.ok then
    Except.ok
      { blob := resp.body
        filename := extractFilenameHdr resp.contentDispositionHdr
        contentType := resp.contentTypeHdr.getD "" }
  else Except.error (errMessageOf resp)

/-! ## The generate handler (useFileGeneration.js)

createGenerateHandler validates, optionally opens the directory picker,
calls the API, and then delivers the document: browser download when
the default-download box is checked, a write through the picked
directory handle otherwise — falling back to a browser download, with
an error message, when that write throws.  The async control flow is
embedded as a pure function of the outcomes of its effectful steps. -/

/-- Outcome of the directory picker step. -/
inductive PickOutcome where
  | cancelled
  | failed
  | picked (dirName : String)

/-- Final user-visible state of one handler run: the error and success
messages, the browser downloads triggered, and the files written
through the picked directory handle. -/
structure HandlerOutcome where
  errorMsg : Option String
  successMsg : Option String
  browserDownloads : List GenResult
  dirWrites : List (String × GenResult)

/-- The handler's tail after directory selection: call the API with the
trimmed directory, then deliver the document (the catch block around
the directory write downgrades its failure to an error message and a
browser download). -/
def generateAfterPick (trimmedDir : String) (dirHandle : Option String)
    (useDefaultDownload : Bool) (api : String → Except String GenResult)
    (saveFails : Bool) : HandlerOutcome :=
  match api trimmedDir with
  | .error msg => ⟨some msg, none, [], []⟩
  | .ok doc =>
    if useDefaultDownload then
      ⟨none, some ("Download complete, saved to default browser download folder as \"" ++ doc.filename ++ "\""), [doc], []⟩
    else
      match dirHandle with
      | some dh =>
        if saveFails then
          ⟨some "Failed to save file to directory. Downloading instead.", none,
            [doc], []⟩
        else
          ⟨none, some ("Download complete, saved to output: " ++ dh ++ "/" ++ doc.filename), [], [(dh, doc)]⟩
      | none => ⟨none, some ("Saved to " ++ trimmedDir ++ "/" ++ doc.filename), [], []⟩

/-- One run of the handler returned by createGenerateHandler, as a
function of the validation result, the two directory-related inputs,
the picker outcome, the API call outcome and whether the directory
write throws. -/
def runGenerateHandler (validationError : Option String)
    (useDefaultDownload : Bool) (outputDir : String) (pick : PickOutcome)
    (api : String → Except String GenResult) (saveFails : Bool) :
    HandlerOutcome :=
  match validationError with
  | some msg => ⟨some msg, none, [], []⟩
  | none =>
    if ¬useDefaultDownload ∧ outputDir = "" then
      match pick with
      | .cancelled => ⟨none, none, [], []⟩
      | .failed => generateAfterPick "" none useDefaultDownload api saveFails
      | .picked name =>
        generateAfterPick name (some name) useDefaultDownload api saveFails
    else generateAfterPick outputDir none useDefaultDownload api saveFails

/-- A concrete entry used by witnesses. -/
def sampleEntry : ScheduleEntry :=
  ⟨"Erie", "12345", "Rte 5", "I-90", "10/01/25", "10/14/25",
    "10/14/25 & 10/25/25", "N", "Buffalo"⟩

/-- A concrete successful response used by witnesses. -/
def sampleResponseOk : HttpResponse :=
  ⟨true, "bytes", some "attachment; filename=\"a.xlsx\"",
    some "application/zip", none⟩

/-- A concrete failed response used by witnesses. -/
def sampleResponseErr : HttpResponse :=
  ⟨false, "", none, none, some (some "row 3: invalid date")⟩

/-- A concrete rendered document used by witnesses. -/
def sampleDoc : GenResult := ⟨"bytes", "team_20251013.xlsx", "application/zip"⟩

/-- A concrete API outcome used by witnesses. -/
def sampleApi : String → Except String GenResult := fun _ => Except.ok sampleDoc

end IngestionTools

namespace IngestionTools

/-- Claim C2: the column layout is a fixed enumerated configuration constant
mapping county to 0, bin to 1, feature_carried to 2, feature_crossed to 3,
the previous-inspection due date to 5, due_date to 6, gr to 9, access to 15,
scheduled_date to 16 and town to 19, with gaps between indices (no field is
mapped to 4, 7 or 8, for instance), and the two copies of the mapping in the
Schedule and Daily Logs pages are identical. -/
theorem masterScheduleColumns_fixed_contract :
    masterScheduleColumnsSchedule .county = 0 ∧
    masterScheduleColumnsSchedule .bin = 1 ∧
    masterScheduleColumnsSchedule .feature_carried = 2 ∧
    masterScheduleColumnsSchedule .feature_crossed = 3 ∧
    masterScheduleColumnsSchedule .prev_inspection_due_date = 5 ∧
    masterScheduleColumnsSchedule .due_date = 6 ∧
    masterScheduleColumnsSchedule .gr = 9 ∧
    masterScheduleColumnsSchedule .access = 15 ∧
    masterScheduleColumnsSchedule .scheduled_date = 16 ∧
    masterScheduleColumnsSchedule .town = 19 ∧
    (∀ f, masterScheduleColumnsSchedule f = masterScheduleColumnsDailyLogs f) ∧
    (∀ f, masterScheduleColumnsSchedule f ∈ ([0, 1, 2, 3, 5, 6, 9, 15, 16, 19] : List Nat)) := by
  refine ⟨rfl, rfl, rfl, rfl, rfl, rfl, rfl, rfl, rfl, rfl, ?_, ?_⟩
  · intro f; cases f <;> rfl
  · intro f; cases f <;> simp [masterScheduleColumnsSchedule]

/-- Claim C8: a missing or empty due_date value renders as the literal
placeholder dash, while a missing or empty value of any other field renders
as the empty string, and any non-empty value renders as itself. -/
theorem renderCellText_due_date_placeholder :
    renderCellText "due_date" none = "-" ∧
    renderCellText "due_date" (some "") = "-" ∧
    (∀ f, f ≠ "due_date" → renderCellText f none = "" ∧
      renderCellText f (some "") = "") ∧
    (∀ f s, s ≠ "" → renderCellText f (some s) = s) := by
  refine ⟨rfl, rfl, ?_, ?_⟩
  · intro f hf
    exact ⟨by simp [renderCellText, hf], by simp [renderCellText, hf]⟩
  · intro f s hs
    simp [renderCellText, hs]

/-- Witness for C8 at the concrete field name "county". -/
theorem renderCellText_due_date_placeholder_witness :
    ("county" ≠ "due_date" ∧ "x" ≠ "") ∧
    (renderCellText "county" none = "" ∧ renderCellText "county" (some "") = "") ∧
    renderCellText "county" (some "x") = "x" :=
  ⟨⟨by decide, by decide⟩,
    renderCellText_due_date_placeholder.2.2.1 "county" (by decide),
    renderCellText_due_date_placeholder.2.2.2 "county" "x" (by decide)⟩

/-- Claim C9: a preview cell carries the class "lc-y" exactly when its field
is lane_closed and its value is exactly "Y"; every other cell carries the
empty class, so this is the single conditional style rule. -/
theorem cellClassOf_lane_closed_only :
    (∀ f v, cellClassOf f v = "lc-y" ↔ (f = "lane_closed" ∧ v = some "Y")) ∧
    (∀ f v, cellClassOf f v = "lc-y" ∨ cellClassOf f v = "") := by
  constructor
  · intro f v
    constructor
    · intro h
      by_contra hc
      rw [cellClassOf, if_neg hc] at h
      exact absurd h (by decide)
    · intro h
      rw [cellClassOf, if_pos h]
  · intro f v
    rw [cellClassOf]
    split
    · exact Or.inl rfl
    · exact Or.inr rfl

/-- Claim C7: editing one cell of the preview replaces only the named field
of the entry at the given row index; every other row is unchanged, and every
other field of the edited row is unchanged. -/
theorem handleCellChange_one_cell (es : List JsObj) (i : Nat) (f v : String)
    (h : i < es.length) :
    (handleCellChange es i f v).length = es.length ∧
    (∀ j, j ≠ i → (handleCellChange es i f v)[j]? = es[j]?) ∧
    (∀ e, es[i]? = some e →
      (handleCellChange es i f v)[i]? = some (objSet e f v) ∧
      objSet e f v f = v ∧
      (∀ g, g ≠ f → objSet e f v g = e g)) := by
  unfold handleCellChange
  refine ⟨List.length_set es i _, ?_, ?_⟩
  · intro j hj
    exact List.getElem?_set_ne (Ne.symm hj)
  · intro e he
    have hd : es.getD i (fun _ => "") = e := by
      show (es.get? i).getD _ = e
      rw [List.get?_eq_getElem?, he]; rfl
    refine ⟨?_, ?_, ?_⟩
    · rw [hd]
      exact List.getElem?_set_eq_of_lt _ h
    · unfold objSet; simp
    · intro g hg
      unfold objSet; simp [hg]

/-- Witness for C7: editing row 1 of a concrete two-row list. -/
theorem handleCellChange_one_cell_witness :
    1 < sampleEntries.length ∧
    ((handleCellChange sampleEntries 1 "bin" "X").length = sampleEntries.length ∧
      (∀ j, j ≠ 1 → (handleCellChange sampleEntries 1 "bin" "X")[j]? = sampleEntries[j]?) ∧
      (∀ e, sampleEntries[1]? = some e →
        (handleCellChange sampleEntries 1 "bin" "X")[1]? = some (objSet e "bin" "X") ∧
        objSet e "bin" "X" "bin" = "X" ∧
        (∀ g, g ≠ "bin" → objSet e "bin" "X" g = e g))) :=
  ⟨by decide, handleCellChange_one_cell sampleEntries 1 "bin" "X" (by decide)⟩

/-- Adding an entry to a bucket map keeps the union of bucket contents
equal, as a multiset, to the old union plus that entry. -/
theorem bucketUnion_addToBucket {α : Type} (m : List (Nat × List α)) (k : Nat)
    (e : α) :
    (bucketUnion (addToBucket m k e)).Perm (bucketUnion m ++ [e]) := by
  induction m with
  | nil => simp [addToBucket, bucketUnion]
  | cons q rest ih =>
    obtain ⟨k', b⟩ := q
    by_cases h : k' = k
    · simp only [addToBucket, if_pos h, bucketUnion, List.flatMap_cons,
        List.append_assoc]
      exact List.Perm.append_left b List.perm_append_comm
    · simp only [addToBucket, if_neg h, bucketUnion, List.flatMap_cons,
        List.append_assoc]
      simp only [bucketUnion] at ih
      exact List.Perm.append_left b ih

/-- Adding an entry whose key matches preserves the bucket-key invariant. -/
theorem addToBucket_keyed {α : Type} (key : α → Nat) (k : Nat) (e : α)
    (he : key e = k) :
    ∀ m : List (Nat × List α), (∀ p ∈ m, ∀ x ∈ p.2, key x = p.1) →
      ∀ p ∈ addToBucket m k e, ∀ x ∈ p.2, key x = p.1 := by
  intro m
  induction m with
  | nil =>
    intro _ p hp x hx
    simp only [addToBucket, List.mem_singleton] at hp
    subst hp
    simp only [List.mem_singleton] at hx
    subst hx
    exact he
  | cons q rest ih =>
    obtain ⟨k', b⟩ := q
    intro hm p hp x hx
    by_cases h : k' = k
    · simp only [addToBucket, if_pos h] at hp
      rcases List.mem_cons.mp hp with h1 | h1
      · subst h1
        rcases List.mem_append.mp hx with h2 | h2
        · exact hm (k', b) (List.mem_cons_self _ _) x h2
        · simp only [List.mem_singleton] at h2
          subst h2
          rw [he, h]
      · exact hm _ (List.mem_cons_of_mem _ h1) x hx
    · simp only [addToBucket, if_neg h] at hp
      rcases List.mem_cons.mp hp with h1 | h1
      · subst h1
        exact hm (k', b) (List.mem_cons_self _ _) x hx
      · exact ih (fun p hp => hm p (List.mem_cons_of_mem _ hp)) p h1 x hx

/-- Folding entries into buckets appends them, as a multiset, to the
union of the accumulator's buckets. -/
theorem foldlBuckets_perm (es : List ScheduleEntry) :
    ∀ acc : List (Nat × List ScheduleEntry),
      (bucketUnion (es.foldl (fun m e => addToBucket m (dayIndexOf e) e) acc)).Perm
        (bucketUnion acc ++ es) := by
  induction es with
  | nil => intro acc; simp [List.foldl_nil]
  | cons e es ih =>
    intro acc
    simp only [List.foldl_cons]
    have h2 : (bucketUnion (addToBucket acc (dayIndexOf e) e) ++ es).Perm
        ((bucketUnion acc ++ [e]) ++ es) :=
      List.Perm.append_right es (bucketUnion_addToBucket acc (dayIndexOf e) e)
    have h3 := (ih (addToBucket acc (dayIndexOf e) e)).trans h2
    simpa [List.append_assoc, List.singleton_append] using h3

/-- Folding entries into buckets preserves the bucket-key invariant. -/
theorem foldlBuckets_keyed (es : List ScheduleEntry) :
    ∀ acc : List (Nat × List ScheduleEntry),
      (∀ p ∈ acc, ∀ x ∈ p.2, dayIndexOf x = p.1) →
      ∀ p ∈ es.foldl (fun m e => addToBucket m (dayIndexOf e) e) acc,
        ∀ x ∈ p.2, dayIndexOf x = p.1 := by
  induction es with
  | nil => intro acc h; simpa using h
  | cons e es ih =>
    intro acc h
    simp only [List.foldl_cons]
    exact ih _ (addToBucket_keyed dayIndexOf (dayIndexOf e) e rfl acc h)

/-- Claim C1: the weekday grouping of DailyLogPreview assigns each entry to
exactly one bucket keyed by its scheduled_date's weekday index, and the
union of all bucket contents, order ignored, is exactly the input list —
no entry is dropped and none is duplicated. -/
theorem entriesByDay_partitions_entries (es : List ScheduleEntry) :
    (bucketUnion (entriesByDay es)).Perm es ∧
    ∀ p ∈ entriesByDay es, ∀ e ∈ p.2, dayIndexOf e = p.1 := by
  constructor
  · have h := foldlBuckets_perm es []
    simpa [bucketUnion, entriesByDay] using h
  · exact foldlBuckets_keyed es [] (by simp)

/-- Lists of consecutive ordinals are chains of successor steps. -/
theorem chainAsc (a n : Nat) :
    List.Chain' (fun x y => y = x + 1) (List.range' a n) := by
  induction n generalizing a with
  | zero => simp
  | succ n ih =>
    rw [List.range'_succ a n 1, List.chain'_cons']
    constructor
    · intro y hy
      cases n with
      | zero => simp at hy
      | succ m =>
        rw [List.range'_succ (a + 1) m 1] at hy
        simp only [List.head?_cons, Option.mem_def, Option.some_inj] at hy
        omega
    · exact ih (a + 1)

/-- Claim C4: for a range expression D1 to D2 (spec-modelled date grammar),
if D1 is on or before D2 the parser returns the contiguous ascending
sequence of every calendar day from D1 through D2 inclusive, of length
(D2 - D1) + 1 in days; if D2 is before D1 the parse fails. -/
theorem dateRangeExpr_spec (s a b : List Char) (d1 d2 : Date)
    (hs : splitFirstSub sepTo s = some (a, b))
    (ha : parseDateToken a = some d1) (hb : parseDateToken b = some d2) :
    (toOrd d1 ≤ toOrd d2 →
      ∃ l, parseDateExpr s = some l ∧
        l.length = (toOrd d2 - toOrd d1) + 1 ∧
        l.head? = some (toOrd d1) ∧
        l.getLast? = some (toOrd d2) ∧
        List.Chain' (fun x y => y = x + 1) l) ∧
    (toOrd d2 < toOrd d1 → parseDateExpr s = none) := by
  have hp : parseDateExpr s = rangeDates d1 d2 := by
    simp [parseDateExpr, hs, ha, hb]
  constructor
  · intro hle
    refine ⟨List.range' (toOrd d1) (toOrd d2 - toOrd d1 + 1), ?_, ?_, ?_, ?_, ?_⟩
    · rw [hp, rangeDates, if_neg (by omega)]
    · simp [List.length_range']
    · rw [List.range'_succ (toOrd d1) (toOrd d2 - toOrd d1) 1]
      rfl
    · rw [List.range'_1_concat, List.getLast?_concat]
      have h : toOrd d1 + (toOrd d2 - toOrd d1) = toOrd d2 := by omega
      rw [h]
    · exact chainAsc _ _
  · intro hlt
    rw [hp, rangeDates, if_pos hlt]

/-- Witness for C4 at the concrete expression 10/14/25 to 10/16/25. -/
theorem dateRangeExpr_spec_witness :
    (splitFirstSub sepTo ("10/14/25 to 10/16/25".data)
        = some ("10/14/25".data, "10/16/25".data) ∧
      parseDateToken ("10/14/25".data) = some ⟨2025, 10, 14⟩ ∧
      parseDateToken ("10/16/25".data) = some ⟨2025, 10, 16⟩ ∧
      toOrd ⟨2025, 10, 14⟩ ≤ toOrd ⟨2025, 10, 16⟩) ∧
    (∃ l, parseDateExpr ("10/14/25 to 10/16/25".data) = some l ∧
      l.length = (toOrd ⟨2025, 10, 16⟩ - toOrd ⟨2025, 10, 14⟩) + 1 ∧
      l.head? = some (toOrd ⟨2025, 10, 14⟩) ∧
      l.getLast? = some (toOrd ⟨2025, 10, 16⟩) ∧
      List.Chain' (fun x y => y = x + 1) l) :=
  ⟨⟨by decide, by decide, by decide, by decide⟩,
    (dateRangeExpr_spec ("10/14/25 to 10/16/25".data) ("10/14/25".data)
      ("10/16/25".data) ⟨2025, 10, 14⟩ ⟨2025, 10, 16⟩ (by decide) (by decide)
      (by decide)).1 (by decide)⟩

/-- Stripping a literal prefix off itself leaves the tail. -/
theorem stripLead_append (l t : List Char) : stripLead l (l ++ t) = some t := by
  induction l with
  | nil => rfl
  | cons c l ih => simp [stripLead, ih]

/-- Unfolding lemma: escaping the empty string. -/
theorem escape_nil : escape [] = [] := rfl

/-- Unfolding lemma: escaping one more character. -/
theorem escape_cons (c : Char) (s : List Char) :
    escape (c :: s) = escChar c ++ escape s := rfl

/-- Strings are their character data. -/
theorem stringMk_data (s : String) : String.mk s.data = s := rfl

/-- Stripping a one-character literal off itself. -/
theorem stripLead_cons_self (c : Char) (t : List Char) :
    stripLead [c] (c :: t) = some t := by
  simp [stripLead]

/-- Reading an escaped string body recovers it together with the input
after the closing quote. -/
theorem readStr_escape (s rest : List Char) :
    readStr (escape s ++ '"' :: rest) = some (s, rest) := by
  induction s with
  | nil =>
    rw [escape_nil, List.nil_append, readStr.eq_def]
    simp
  | cons c s ih =>
    rw [escape_cons, List.append_assoc]
    by_cases hc : c = '"' ∨ c = '\\'
    · have h1 : escChar c = ['\\', c] := by rw [escChar, if_pos hc]
      rw [h1, List.cons_append, List.singleton_append, readStr.eq_def]
      simp [ih]
    · have h1 : escChar c = [c] := by rw [escChar, if_neg hc]
      push_neg at hc
      rw [h1, List.singleton_append, readStr.eq_def]
      simp [hc.1, hc.2, ih]

/-- Reading one encoded field recovers its value and the remainder. -/
theorem readField_encode (lit v rest : List Char) :
    readField lit (lit ++ (escape v ++ '"' :: rest)) = some (v, rest) := by
  rw [readField, stripLead_append]
  simp [readStr_escape]

/-- Decoding an encoded entry recovers it and the remaining input. -/
theorem decodeEntry_encodeEntry (e : ScheduleEntry) (rest : List Char) :
    decodeEntry (encodeEntry e ++ rest) = some (e, rest) := by
  simp only [encodeEntry, decodeEntry, List.append_assoc, List.cons_append,
    List.singleton_append, readField_encode, Option.some_bind,
    stripLead_cons_self, stringMk_data, List.nil_append]

/-- A serialized entry is never empty. -/
theorem encodeEntry_ne_nil (e : ScheduleEntry) : encodeEntry e ≠ [] := by
  simp [encodeEntry, litEntryLead]

/-- A serialized non-empty entry list body is never empty. -/
theorem encodeInner_ne_nil (e : ScheduleEntry) (es : List ScheduleEntry) :
    encodeInner (e :: es) ≠ [] := by
  cases es with
  | nil => simpa [encodeInner] using encodeEntry_ne_nil e
  | cons e2 es2 => simp [encodeInner, encodeEntry, litEntryLead]

/-- One unit of fuel per entry suffices for the array-body decoder. -/
theorem length_le_encodeInner (es : List ScheduleEntry) :
    es.length ≤ (encodeInner es).length + 1 := by
  induction es with
  | nil => simp
  | cons e es ih =>
    cases es with
    | nil => simp [encodeInner]
    | cons e2 es2 =>
      simp only [encodeInner, List.length_cons, List.length_append] at ih ⊢
      omega

/-- Decoding an encoded non-empty array body recovers the entries. -/
theorem decodeInnerAux_encodeInner (es : List ScheduleEntry) :
    ∀ fuel : Nat, es ≠ [] → es.length ≤ fuel →
      decodeInnerAux fuel (encodeInner es ++ [']']) = some es := by
  induction es with
  | nil => intro fuel h; exact absurd rfl h
  | cons e es ih =>
    intro fuel _ hlen
    cases fuel with
    | zero => simp at hlen
    | succ fuel =>
      cases es with
      | nil =>
        simp [encodeInner, decodeInnerAux, decodeEntry_encodeEntry]
      | cons e2 es2 =>
        have hne : (e2 :: es2) ≠ [] := by simp
        have hl : (e2 :: es2).length ≤ fuel := by
          simp only [List.length_cons] at hlen ⊢
          omega
        simp [encodeInner, decodeInnerAux, List.append_assoc,
          List.cons_append, decodeEntry_encodeEntry, ih fuel hne hl]

/-- Round trip of the full entries array: decoding what
generateSchedule serializes yields exactly the input entries — nothing
is altered, dropped or duplicated. -/
theorem decodeEntries_encodeEntries (es : List ScheduleEntry) :
    decodeEntries (encodeEntries es) = some es := by
  cases es with
  | nil => simp [encodeEntries, encodeInner, decodeEntries]
  | cons e es2 =>
    have hni : encodeInner (e :: es2) ≠ [] := encodeInner_ne_nil e es2
    have hlen : (e :: es2).length ≤ (encodeInner (e :: es2) ++ [']']).length := by
      have := length_le_encodeInner (e :: es2)
      simp only [List.length_append, List.length_cons] at this ⊢
      simpa using this
    have h1 : decodeEntries ('[' :: (encodeInner (e :: es2) ++ [']'])) =
        if (encodeInner (e :: es2) ++ [']']) = [']'] then some []
        else decodeInnerAux (encodeInner (e :: es2) ++ [']']).length
          (encodeInner (e :: es2) ++ [']']) := rfl
    rw [encodeEntries, List.cons_append, h1, if_neg ?hne]
    · exact decodeInnerAux_encodeInner (e :: es2) _ (by simp) hlen
    · intro heq
      exact hni (List.append_left_eq_self.mp heq)

/-- Claim C5: the Generate client operation sends team_name, output_dir
and save_to_system as given together with the entries serialized
verbatim — decoding the serialized payload returns exactly the input
entries, so no field is altered, dropped or re-parsed — and on every
successful response it returns exactly a blob, a filename and a content
type taken from the response. -/
theorem generateSchedule_request_spec (t : String) (es : List ScheduleEntry)
    (dir : String) (save : Bool) :
    (mkGenerateRequest t es dir save).team_name = t ∧
    (mkGenerateRequest t es dir save).output_dir = dir ∧
    (mkGenerateRequest t es dir save).save_to_system = save ∧
    decodeEntries (mkGenerateRequest t es dir save).entries_json = some es ∧
    (∀ resp : HttpResponse, resp.ok = true →
      generateScheduleResp resp = Except.ok
        { blob := resp.body
          filename := extractFilenameHdr resp.contentDispositionHdr
          contentType := resp.contentTypeHdr.getD "" }) := by
  refine ⟨rfl, rfl, rfl, decodeEntries_encodeEntries es, ?_⟩
  intro resp h
  simp [generateScheduleResp, h]

/-- Witness for C5 at a concrete entry list and successful response. -/
theorem generateSchedule_request_spec_witness :
    sampleResponseOk.ok = true ∧
    ((mkGenerateRequest "Team A" [sampleEntry] "" false).team_name = "Team A" ∧
      (mkGenerateRequest "Team A" [sampleEntry] "" false).output_dir = "" ∧
      (mkGenerateRequest "Team A" [sampleEntry] "" false).save_to_system = false ∧
      decodeEntries (mkGenerateRequest "Team A" [sampleEntry] "" false).entries_json
        = some [sampleEntry] ∧
      generateScheduleResp sampleResponseOk = Except.ok
        { blob := sampleResponseOk.body
          filename := extractFilenameHdr sampleResponseOk.contentDispositionHdr
          contentType := sampleResponseOk.contentTypeHdr.getD "" }) :=
  ⟨rfl,
    (generateSchedule_request_spec "Team A" [sampleEntry] "" false).1,
    (generateSchedule_request_spec "Team A" [sampleEntry] "" false).2.1,
    (generateSchedule_request_spec "Team A" [sampleEntry] "" false).2.2.1,
    (generateSchedule_request_spec "Team A" [sampleEntry] "" false).2.2.2.1,
    (generateSchedule_request_spec "Team A" [sampleEntry] "" false).2.2.2.2
      sampleResponseOk rfl⟩

/-- Claim C6: on every non-ok response the client operation throws — it
never returns a document — with the server's machine-parseable error
string as the message, falling back to the fixed message when the body
is not parseable JSON; the message is always one of those two strings,
never anything else such as a stack trace. -/
theorem generateSchedule_error_spec (resp : HttpResponse)
    (h : resp.ok = false) :
    generateScheduleResp resp = Except.error (errMessageOf resp) ∧
    (resp.errorField = none →
      generateScheduleResp resp = Except.error "Failed to generate schedule") ∧
    (∀ s, resp.errorField = some (some s) → s ≠ "" →
      generateScheduleResp resp = Except.error s) ∧
    (∀ r, generateScheduleResp resp ≠ Except.ok r) := by
  have hg : generateScheduleResp resp = Except.error (errMessageOf resp) := by
    simp [generateScheduleResp, h]
  refine ⟨hg, ?_, ?_, ?_⟩
  · intro he
    rw [hg]
    simp [errMessageOf, he]
  · intro s hs hne
    rw [hg]
    simp [errMessageOf, hs, hne]
  · intro r
    rw [hg]
    simp

/-- Witness for C6 at a concrete failed response carrying a server
error string. -/
theorem generateSchedule_error_spec_witness :
    (sampleResponseErr.ok = false ∧
      sampleResponseErr.errorField = some (some "row 3: invalid date") ∧
      ("row 3: invalid date" : String) ≠ "") ∧
    generateScheduleResp sampleResponseErr
      = Except.error "row 3: invalid date" :=
  ⟨⟨rfl, rfl, by decide⟩,
    (generateSchedule_error_spec sampleResponseErr rfl).2.2.1
      "row 3: invalid date" rfl (by decide)⟩

/-- A successful stripLead answer decomposes its input. -/
theorem stripLead_eq_some (pat : List Char) :
    ∀ s t : List Char, stripLead pat s = some t → s = pat ++ t := by
  induction pat with
  | nil =>
    intro s t h
    simp only [stripLead] at h
    simpa using h
  | cons p ps ih =>
    intro s t h
    cases s with
    | nil => simp [stripLead] at h
    | cons c cs =>
      simp only [stripLead] at h
      by_cases hpc : p = c
      · rw [if_pos hpc] at h
        rw [List.cons_append, ← hpc, ih cs t h]
      · rw [if_neg hpc] at h
        exact absurd h (by simp)

/-- A successful first-occurrence split decomposes its input. -/
theorem splitFirstSub_eq_some (pat : List Char) :
    ∀ s a b : List Char, splitFirstSub pat s = some (a, b) →
      s = a ++ pat ++ b := by
  intro s
  induction s with
  | nil => intro a b h; simp [splitFirstSub] at h
  | cons c rest ih =>
    intro a b h
    simp only [splitFirstSub] at h
    cases hs : stripLead pat (c :: rest) with
    | some post =>
      rw [hs] at h
      simp only [Option.some_inj, Prod.mk.injEq] at h
      obtain ⟨ha, hb⟩ := h
      subst ha
      subst hb
      simpa using stripLead_eq_some pat _ _ hs
    | none =>
      rw [hs] at h
      simp only [Option.map_eq_some'] at h
      obtain ⟨p, hp, hab⟩ := h
      obtain ⟨ha, hb⟩ := Prod.mk.injEq .. |>.mp hab
      subst ha
      subst hb
      have hr := ih p.1 p.2 (by rw [hp])
      rw [hr]
      simp [List.cons_append, List.append_assoc]

/-- The filename pattern never matches a header without a double quote. -/
theorem splitFirstSub_quote_none (s : List Char) (h : '"' ∉ s) :
    splitFirstSub fnPat s = none := by
  cases hs : splitFirstSub fnPat s with
  | none => rfl
  | some p =>
    obtain ⟨a, b⟩ := p
    have hd := splitFirstSub_eq_some fnPat s a b hs
    exact absurd (by rw [hd]; simp [fnPat] : '"' ∈ s) h

/-- Skipping one non-matching head character of the search. -/
theorem splitFirstSub_cons_ne (pat : List Char) (hc : Char) (pt : List Char)
    (hp : pat = hc :: pt) (c : Char) (hne : hc ≠ c) (rest : List Char) :
    splitFirstSub pat (c :: rest) =
      (splitFirstSub pat rest).map (fun p => (c :: p.1, p.2)) := by
  subst hp
  simp [splitFirstSub, stripLead, hne]

/-- Searching past a prefix free of the pattern's head character. -/
theorem splitFirstSub_notMem_append (pat : List Char) (hc : Char)
    (pt : List Char) (hp : pat = hc :: pt) :
    ∀ pre rest : List Char, hc ∉ pre →
      splitFirstSub pat (pre ++ rest) =
        (splitFirstSub pat rest).map (fun p => (pre ++ p.1, p.2)) := by
  intro pre
  induction pre with
  | nil =>
    intro rest _
    cases hs : splitFirstSub pat rest <;> simp [hs]
  | cons c pre ih =>
    intro rest h
    simp only [List.mem_cons, not_or] at h
    rw [List.cons_append,
      splitFirstSub_cons_ne pat hc pt hp c h.1 (pre ++ rest), ih rest h.2]
    cases hs : splitFirstSub pat rest <;> simp [hs]

/-- The search finds the pattern at the very front. -/
theorem splitFirstSub_self (pat : List Char) (hc : Char) (pt : List Char)
    (hp : pat = hc :: pt) (t : List Char) :
    splitFirstSub pat (pat ++ t) = some ([], t) := by
  subst hp
  have hl : stripLead (hc :: pt) (hc :: (pt ++ t)) = some t := by
    have := stripLead_append (hc :: pt) t
    simpa using this
  simp only [List.cons_append, splitFirstSub, List.append_eq, hl]

/-- The regex capture on a standard well-formed header is the quoted
name, whenever it is non-empty. -/
theorem extractCapture_std (pre nm : List Char)
    (hpre : 'f' ∉ pre) (hnm : nm ≠ []) :
    extractCapture (pre ++ fnPat ++ nm ++ ['"']) = some nm := by
  have h1 := splitFirstSub_notMem_append fnPat 'f'
    ['i', 'l', 'e', 'n', 'a', 'm', 'e', '=', '"'] rfl pre
    (fnPat ++ (nm ++ ['"'])) hpre
  have h2 := splitFirstSub_self fnPat 'f'
    ['i', 'l', 'e', 'n', 'a', 'm', 'e', '=', '"'] rfl (nm ++ ['"'])
  rw [extractCapture, List.append_assoc (pre ++ fnPat) nm,
    List.append_assoc pre fnPat, h1, h2]
  have h3 : splitAtFirstQuote ('"' :: nm.reverse) = some nm.reverse := by
    simp [splitAtFirstQuote]
  simp [h3, hnm]

/-- Claim C10: on a successful Generate response the client's filename
is the quoted filename captured from the Content-Disposition header,
and whenever the header is absent — or contains no quoted filename, in
particular when it has no double quote at all — the filename is exactly
schedule.xlsx. -/
theorem generateSchedule_filename_spec (nm : List Char) (hnm : nm ≠ []) :
    (∀ hdr : String, hdr.data = attachLead ++ fnPat ++ nm ++ ['"'] →
      extractFilenameHdr (some hdr) = String.mk nm) ∧
    extractFilenameHdr none = "schedule.xlsx" ∧
    (∀ hdr : String, '"' ∉ hdr.data →
      extractFilenameHdr (some hdr) = "schedule.xlsx") ∧
    (∀ resp : HttpResponse, resp.ok = true →
      ∃ r, generateScheduleResp resp = Except.ok r ∧
        r.filename = extractFilenameHdr resp.contentDispositionHdr) := by
  refine ⟨?_, rfl, ?_, ?_⟩
  · intro hdr hh
    rw [extractFilenameHdr, hh, extractCapture_std attachLead nm (by decide) hnm]
  · intro hdr hq
    rw [extractFilenameHdr]
    simp [extractCapture, splitFirstSub_quote_none hdr.data hq]
  · intro resp h
    refine ⟨{ blob := resp.body
              filename := extractFilenameHdr resp.contentDispositionHdr
              contentType := resp.contentTypeHdr.getD "" }, ?_, rfl⟩
    simp [generateScheduleResp, h]

/-- Witness for C10 at a concrete header carrying x.xlsx. -/
theorem generateSchedule_filename_spec_witness :
    ("x.xlsx".data ≠ ([] : List Char) ∧
      ("attachment; filename=\"x.xlsx\"" : String).data
        = attachLead ++ fnPat ++ "x.xlsx".data ++ ['"']) ∧
    extractFilenameHdr (some "attachment; filename=\"x.xlsx\"")
      = String.mk "x.xlsx".data :=
  ⟨⟨by decide, by decide⟩,
    (generateSchedule_filename_spec "x.xlsx".data (by decide)).1
      "attachment; filename=\"x.xlsx\"" (by decide)⟩

/-- Claim C3: in a generate run where the user chose a target directory
through the picker, if writing the generated file to that directory
fails the failure is reported as an error message but the document is
still delivered as a browser download; the directory-write failure
never loses the document — for either outcome of the write, the
document is delivered to the browser or written to the directory. -/
theorem generateHandler_dirwrite_failure (dh : String) (doc : GenResult)
    (api : String → Except String GenResult) (hapi : api dh = Except.ok doc) :
    (runGenerateHandler none false "" (PickOutcome.picked dh) api true).errorMsg
        = some "Failed to save file to directory. Downloading instead." ∧
    (runGenerateHandler none false "" (PickOutcome.picked dh) api true).browserDownloads
        = [doc] ∧
    (∀ saveFails : Bool,
      (runGenerateHandler none false "" (PickOutcome.picked dh) api
          saveFails).browserDownloads = [doc] ∨
      (runGenerateHandler none false "" (PickOutcome.picked dh) api
          saveFails).dirWrites = [(dh, doc)]) := by
  have hrun : ∀ saveFails : Bool,
      runGenerateHandler none false "" (PickOutcome.picked dh) api saveFails
        = generateAfterPick dh (some dh) false api saveFails := by
    intro saveFails
    rw [runGenerateHandler]
    rw [if_pos (by simp)]
  refine ⟨?_, ?_, ?_⟩
  · rw [hrun true, generateAfterPick, hapi]
    rfl
  · rw [hrun true, generateAfterPick, hapi]
    rfl
  · intro saveFails
    cases saveFails with
    | true => exact Or.inl (by rw [hrun true, generateAfterPick, hapi]; rfl)
    | false => exact Or.inr (by rw [hrun false, generateAfterPick, hapi]; rfl)

/-- Witness for C3 at a concrete directory, document and API outcome. -/
theorem generateHandler_dirwrite_failure_witness :
    sampleApi "folder" = Except.ok sampleDoc ∧
    ((runGenerateHandler none false "" (PickOutcome.picked "folder") sampleApi
        true).errorMsg
      = some "Failed to save file to directory. Downloading instead." ∧
    (runGenerateHandler none false "" (PickOutcome.picked "folder") sampleApi
        true).browserDownloads = [sampleDoc] ∧
    (∀ saveFails : Bool,
      (runGenerateHandler none false "" (PickOutcome.picked "folder") sampleApi
          saveFails).browserDownloads = [sampleDoc] ∨
      (runGenerateHandler none false "" (PickOutcome.picked "folder") sampleApi
          saveFails).dirWrites = [("folder", sampleDoc)])) :=
  ⟨rfl, generateHandler_dirwrite_failure "folder" sampleDoc sampleApi rfl⟩

/-- Witness for C1 at a concrete one-entry list. -/
theorem entriesByDay_partitions_entries_witness :
    (bucketUnion (entriesByDay [sampleEntry])).Perm [sampleEntry] ∧
    ∀ p ∈ entriesByDay [sampleEntry], ∀ e ∈ p.2, dayIndexOf e = p.1 :=
  entriesByDay_partitions_entries [sampleEntry]

/-- Witness for C9 at concrete fields and values. -/
theorem cellClassOf_lane_closed_only_witness :
    cellClassOf "lane_closed" (some "Y") = "lc-y" ∧
    (cellClassOf "county" (some "Y") = "lc-y" ∨
      cellClassOf "county" (some "Y") = "") :=
  ⟨(cellClassOf_lane_closed_only.1 "lane_closed" (some "Y")).mpr ⟨rfl, rfl⟩,
    cellClassOf_lane_closed_only.2 "county" (some "Y")⟩
